import Mathlib

/-!
Shallow embedding of the SOM engine (`src/models/som/SOM.py`) and the Hebbian
associator (`src/models/som/HebbianModel.py`) of the DeepWordLearning
repository, together with proofs about the claims of its specification.

Modelling conventions:
* numpy/TensorFlow float arithmetic is embedded as exact real arithmetic (`ℝ`);
  vectors are `List ℝ`, matrices `List (List ℝ)`.
* Python exceptions are modelled with `Except PyErr`; an attribute that is
  only assigned by some methods (`self._weightages`, `self._locations`) is an
  `Option` field, and reading it while it is `none` raises `attributeError`.
* The TensorFlow session owned by each object is modelled by a `sessClosed`
  flag: `with self._sess:` blocks close the session when they exit, and any
  later `sess.run`/`saver.restore` on the object raises `sessionClosed`
  (TensorFlow's `RuntimeError: Attempted to use a closed Session`).
* Random initialisation (`tf.random_normal`) is modelled by an explicit
  initialisation function supplied to the constructor.
-/

noncomputable section

/-- Python exceptions raised by the modelled code paths. -/
inductive PyErr where
  /-- Reading an attribute that was never assigned. -/
  | attributeError
  /-- The `ValueError("SOM not trained yet")` raised by trained-state checks. -/
  | valueErrorNotTrained
  /-- Any other `ValueError` (for instance `max()` of an empty sequence). -/
  | valueError
  /-- Unsupported operand types, e.g. `None + float` or `list / float`. -/
  | typeError
  /-- A failed `assert` statement. -/
  | assertionError
  /-- `RuntimeError`: attempt to use a closed TensorFlow session. -/
  | sessionClosed
  /-- Reading a local variable before it was ever assigned
  (`UnboundLocalError`). -/
  | unboundLocalError
  /-- `sys.exit(1)`. -/
  | systemExit
deriving DecidableEq

/-- Python `max(xs)` on a non-empty list (numpy `max` likewise). -/
def pyMax (l : List ℝ) : ℝ := l.foldl max l.headI

/-- Python `min(xs)` on a non-empty list. -/
def pyMin (l : List ℝ) : ℝ := l.foldl min l.headI

/-- Value of `np.argmax(l)`: the first index holding the maximal entry
(numpy replaces the running best only on a strictly greater value). -/
def pyArgmax (l : List ℝ) : ℕ :=
  (List.range l.length).foldl (fun best i => if l.getD best 0 < l.getD i 0 then i else best) 0

/-- Value of Python `min(range(n), key=f)`: the first index with minimal key
(the running best is replaced only by a strictly smaller key).
`tf.argmin`/`np.argmin` over a vector of keys behave the same way. -/
def pyMinBy (f : ℕ → ℝ) (n : ℕ) : ℕ :=
  (List.range n).foldl (fun best i => if f i < f best then i else best) 0

/-- A Python `for i in range(n)` loop whose body may `break`: `Sum.inl` is a
normal iteration carrying the next state, `Sum.inr` breaks out of the loop
with the final state. -/
def forRangeAux {σ : Type u} (body : ℕ → σ → σ ⊕ σ) : List ℕ → σ → σ
  | [], s => s
  | i :: rest, s =>
    match body i s with
    | .inl s' => forRangeAux body rest s'
    | .inr s' => s'

/-- Runs `for i in range(n)` with break support from state `s`. -/
def forRange {σ : Type u} (n : ℕ) (s : σ) (body : ℕ → σ → σ ⊕ σ) : σ :=
  forRangeAux body (List.range n) s

/-- Elementwise `np.absolute(x - w)` of two aligned vectors. -/
def absDiffs (x w : List ℝ) : List ℝ := List.zipWith (fun a b => |a - b|) x w

/-- Squared Euclidean distance `sum((x - w) ** 2)` of two aligned vectors. -/
def sqDist (x w : List ℝ) : ℝ := (List.zipWith (fun a b => (a - b) ^ 2) x w).sum

/-- The `np.linalg.norm(x - w)` of two aligned vectors. -/
def euclidDist (x w : List ℝ) : ℝ := Real.sqrt (sqDist x w)

/-- Dot product of two aligned vectors. -/
def dotL (a b : List ℝ) : ℝ := (List.zipWith (· * ·) a b).sum

/-- Matrix-vector product `M @ v` (`v` a column vector). -/
def matVec (M : List (List ℝ)) (v : List ℝ) : List ℝ := M.map (fun row => dotL row v)

/-- Matrix transpose `M.T`. -/
def transposeM (M : List (List ℝ)) : List (List ℝ) :=
  (List.range M.headI.length).map (fun j => M.map (fun row => row.getD j 0))

/-- Elementwise sum of two matrices of equal shape (`tf.add`). -/
def matAdd (A B : List (List ℝ)) : List (List ℝ) :=
  List.zipWith (List.zipWith (· + ·)) A B

/-- Sum of all entries of a matrix (`np.sum` of the flattened matrix). -/
def matSum (M : List (List ℝ)) : ℝ := (M.map List.sum).sum

/-- The mode argument of `SOM.get_activations` (the two string values the
method branches on, `'exp'` and `'linear'`). -/
inductive ActMode where
  | exp
  | linear
deriving DecidableEq

/-- State of a `SOM` instance (`src/models/som/SOM.py`).

`weightageVects` is the value of the TensorFlow variable
`self._weightage_vects`; `locationVects` the constant
`self._location_vects`.  `weightages`/`locationsNp` are the numpy copies
`self._weightages`/`self._locations`, which are only assigned by `train` and
`restore_trained` (reading them earlier raises `AttributeError`). -/
structure SOM where
  m : ℕ
  n : ℕ
  dim : ℕ
  alpha : ℝ
  sigma : ℝ
  tau : ℝ
  threshold : ℝ
  batchSize : ℕ
  nIterations : ℕ
  weightageVects : List (List ℝ)
  locationVects : List (ℤ × ℤ)
  weightages : Option (List (List ℝ))
  locationsNp : Option (List (ℤ × ℤ))
  trained : Bool
  sessClosed : Bool
  checkpointSaved : Bool
  trainInterClassDistance : Option ℝ
  testInterClassDistance : Option ℝ

/-- Output of `SOM._neuron_locations(m, n)`: the grid coordinates in
row-major raster order (`for i in range(m): for j in range(n): yield [i, j]`). -/
def neuronLocations (m n : ℕ) : List (ℤ × ℤ) :=
  (List.range m).flatMap (fun i : ℕ => (List.range n).map (fun j : ℕ => ((i : ℤ), (j : ℤ))))

/-- Python constructor `SOM.__init__`.  `alphaArg`/`sigmaArg` are the optional
arguments (defaults `0.3` and `max(m, n) / 2`), `init i j` the value
`tf.random_normal` samples for weight `[i][j]`.  The `_trained` flag starts
false, no checkpoint exists yet and the numpy attribute copies are unset. -/
def SOM.construct (m n dim nIterations : ℕ) (alphaArg sigmaArg : Option ℝ)
    (tau threshold : ℝ) (batchSize : ℕ) (init : ℕ → ℕ → ℝ) : SOM :=
  { m := m, n := n, dim := dim
    alpha := alphaArg.getD 0.3
    sigma := sigmaArg.getD (max (m : ℝ) (n : ℝ) / 2)
    tau := tau, threshold := threshold
    batchSize := batchSize, nIterations := nIterations
    weightageVects := (List.range (m * n)).map (fun i => (List.range dim).map (fun j => init i j))
    locationVects := neuronLocations m n
    weightages := none, locationsNp := none
    trained := false, sessClosed := false, checkpointSaved := false
    trainInterClassDistance := none, testInterClassDistance := none }

/-- One raw (pre-normalization) activation of `SOM.get_activations` for the
neuron with weight vector `w`: `exp(-(np.sum(d)/len(d))/tau)` in `'exp'`
mode, `1/np.sum(d)` in `'linear'` mode, where `d = np.absolute(x - w)`. -/
def rawActivation (tau : ℝ) (mode : ActMode) (x w : List ℝ) : ℝ :=
  match mode with
  | .exp => Real.exp (-((absDiffs x w).sum / ((absDiffs x w).length : ℝ)) / tau)
  | .linear => 1 / (absDiffs x w).sum

/-- The raw activation vector, one entry per neuron weight vector. -/
def rawActivations (tau : ℝ) (mode : ActMode) (ws : List (List ℝ)) (x : List ℝ) : List ℝ :=
  ws.map (fun w => rawActivation tau mode x w)

/-- Min-max rescaling `(activations - min_) / float(max_ - min_)` of the
activation vector (Lean's `x / 0 = 0` convention stands in for the
degenerate all-entries-equal case). -/
def minMaxNormalize (l : List ℝ) : List ℝ :=
  l.map (fun a => (a - pyMin l) / (pyMax l - pyMin l))

/-- Thresholding `activations[activations < threshold] = 0`. -/
def applyThreshold (t : ℝ) (l : List ℝ) : List ℝ :=
  l.map (fun a => if a < t then 0 else a)

/-- Python method `SOM.get_activations(input_vect, normalize, threshold, mode)`.
Reading `self._weightages` (and, once the loop appends positions,
`self._locations`) on an instance that never trained or restored raises
`AttributeError`; `max()` of an empty activation list raises `ValueError`. -/
def SOM.get_activations (s : SOM) (x : List ℝ) (normalize thresh : Bool)
    (mode : ActMode) : Except PyErr (List ℝ × List (ℤ × ℤ)) := do
  match s.weightages with
  | none => .error .attributeError
  | some ws => do
    let pos ←
      if ws.isEmpty then pure ([] : List (ℤ × ℤ))
      else
        match s.locationsNp with
        | none => .error .attributeError
        | some locs => pure ((List.range ws.length).map (fun i => locs.getD i (0, 0)))
    let acts := rawActivations s.tau mode ws x
    let acts ←
      if normalize then
        if acts.isEmpty then .error .valueError
        else pure (minMaxNormalize acts)
      else pure acts
    let acts := if thresh then applyThreshold s.threshold acts else acts
    return (acts, pos)

/-- Python method `SOM.get_BMU(input_vect)`: the first index minimising
`np.linalg.norm(input_vect - self._weightages[i])` and its grid location.
Note the method touches `self._weightages` without checking `self._trained`,
so on a fresh instance it raises `AttributeError`. -/
def SOM.get_BMU (s : SOM) (x : List ℝ) : Except PyErr (ℕ × (ℤ × ℤ)) :=
  match s.weightages with
  | none => .error .attributeError
  | some ws =>
    match s.locationsNp with
    | none => .error .attributeError
    | some locs =>
      let idx := pyMinBy (fun i => euclidDist x (ws.getD i [])) ws.length
      .ok (idx, locs.getD idx (0, 0))

/-- Python method `SOM.map_vects(input_vects)`: raises
`ValueError("SOM not trained yet")` when `self._trained` is false, otherwise
maps every vector to the grid location of its nearest-weight neuron. -/
def SOM.map_vects (s : SOM) (xs : List (List ℝ)) : Except PyErr (List (ℤ × ℤ)) := do
  if s.trained = false then .error .valueErrorNotTrained
  else
    xs.mapM (fun x => do
      match s.weightages with
      | none => .error .attributeError
      | some ws =>
        match s.locationsNp with
        | none => .error .attributeError
        | some locs =>
          pure (locs.getD (pyMinBy (fun i => euclidDist x (ws.getD i [])) ws.length) (0, 0)))

/-- Number of batches per epoch, `int(np.ceil(len(input_vects) / batch_size))`
(for a positive batch size). -/
def numBatches (len bs : ℕ) : ℕ := (len + bs - 1) / bs

/-- The slice `input_vects[batch_size * i : batch_size * (i + 1)]`. -/
def batchSlice (inputs : List (List ℝ)) (bs i : ℕ) : List (List ℝ) :=
  (inputs.drop (bs * i)).take bs

/-- BMU of a single input under `SOM._get_bmu`: `tf.argmin` of the summed
squared differences against every neuron weight vector. -/
def bmuIndex (ws : List (List ℝ)) (x : List ℝ) : ℕ :=
  pyMinBy (fun i => sqDist x (ws.getD i [])) ws.length

/-- Squared grid distance between two neuron locations
(`SOM._get_bmu_distances`). -/
def locDistSq (p q : ℤ × ℤ) : ℤ := (p.1 - q.1) ^ 2 + (p.2 - q.2) ^ 2

/-- The weight delta of one training step (`SOM._get_weight_delta` together
with the learning-rate matrix built in `SOM.__init__`): for neuron `nIdx` and
feature `dIdx`, the mean over the batch of
`alpha_op * exp(-bmu_distance_sq / sigma_op^2) * (x - w)`, where
`alpha_op = alpha * (1 - t/n_iterations)` and likewise `sigma_op`. -/
def weightDelta (s : SOM) (w : List (List ℝ)) (batch : List (List ℝ))
    (iterNo : ℕ) : List (List ℝ) :=
  let lr : ℝ := 1 - (iterNo : ℝ) / (s.nIterations : ℝ)
  let alphaOp := s.alpha * lr
  let sigmaOp := s.sigma * lr
  let lrm : List ℝ → ℕ → ℝ := fun x nIdx =>
    alphaOp * Real.exp (-(((locDistSq (s.locationVects.getD nIdx (0, 0))
      (s.locationVects.getD (bmuIndex w x) (0, 0)) : ℤ) : ℝ) / sigmaOp ^ 2))
  w.enum.map (fun nw =>
    (nw.2.enum.map (fun dv =>
      (batch.map (fun x => lrm x nw.1 * (x.getD dv.1 0 - dv.2))).sum / (batch.length : ℝ))))

/-- One run of `self._training_op` on a batch:
`tf.assign(weights, weights + delta)`. -/
def applyBatchUpdate (s : SOM) (w : List (List ℝ)) (batch : List (List ℝ))
    (iterNo : ℕ) : List (List ℝ) :=
  matAdd w (weightDelta s w batch iterNo)

/-- Instrumentation record of one epoch of `SOM.train`: which input slices
the NaN `assert` of the delta sanity check was evaluated on, and which
slices were fed to `self._training_op` (i.e. actually applied to the
weights). -/
structure EpochTrace where
  assertedSlices : List (List (List ℝ))
  appliedSlices : List (List (List ℝ))

/-- One epoch (one `iter_no` iteration) of `SOM.train`'s loop, acting on the
current weight matrix `w`.  Every 5th epoch the delta of `input_vects[0:1]`
is computed and NaN-asserted (over `ℝ` the assert cannot fire; the trace
records the slice it was evaluated on).  The batch loop then runs with an
unconditional `break` at the end of its body. -/
def SOM.trainEpoch (s : SOM) (w : List (List ℝ)) (inputs : List (List ℝ))
    (iterNo : ℕ) : List (List ℝ) × EpochTrace :=
  let asserted := if iterNo % 5 = 0 then [inputs.take 1] else []
  let st := forRange (numBatches inputs.length s.batchSize) (w, ([] : List (List (List ℝ))))
    (fun i st =>
      .inr (applyBatchUpdate s st.1 (batchSlice inputs s.batchSize i) iterNo,
            st.2 ++ [batchSlice inputs s.batchSize i]))
  (st.1, { assertedSlices := asserted, appliedSlices := st.2 })

/-- Iteration of the epoch weight update (the loop of `SOM.train` as its
body is written; in execution only epoch 0 is ever reached before the
summary step raises — see `SOM.train`): weights after `k` epochs, with the
traces of every epoch in order. -/
def SOM.runEpochs (s : SOM) (inputs : List (List ℝ)) :
    ℕ → List (List ℝ) × List EpochTrace
  | 0 => (s.weightageVects, [])
  | k + 1 =>
    let prev := s.runEpochs inputs k
    let step := s.trainEpoch prev.1 inputs k
    (step.1, prev.2 ++ [step.2])

/-- Python method `SOM.train(input_vects)` (the `input_classes=None` path;
with class labels the call dies in `class_compactness` instead — see
`SOM.class_compactness` and claim C5).  The whole body runs inside
`with self._sess:`, so the session is closed when the block exits, also when
it exits with an exception; since Python exceptions do not roll back the
attribute mutations already performed, the error value carries the mutated
state.

The method can never return normally:

* with `n_iterations == 0` the epoch loop does not run; line 323 reads
  `self._locations` (`AttributeError` unless a restore assigned it) and
  lines 324-325 then read the local `centroid_grid`, which only the loop
  body assigns (`UnboundLocalError`);
* with `n_iterations > 0`, epoch 0 runs the delta sanity check — the first
  `sess.run`, raising `RuntimeError` on a closed session, or `ValueError`
  when the empty slice `input_vects[0:1]` of an empty input list is fed to
  the `[None, dim]` placeholder — then applies the first batch to the
  weights and stores the numpy copies (lines 262-282), and then builds the
  summary feed_dict of lines 303-313, which reads `train_mean_conv`: a
  local assigned only in the `input_classes is not None` branch (line 288),
  so the epoch raises `UnboundLocalError` there, before the first periodic
  checkpoint save (line 317) and before `self._trained = True` (line 327).

So no call ever sets the trained flag or saves a checkpoint. -/
def SOM.train (s : SOM) (inputs : List (List ℝ)) : Except (PyErr × SOM) SOM :=
  if s.nIterations = 0 then
    match s.locationsNp with
    | none => .error (.attributeError, { s with sessClosed := true })
    | some _ => .error (.unboundLocalError, { s with sessClosed := true })
  else
    if s.sessClosed then .error (.sessionClosed, s)
    else if inputs.isEmpty then
      .error (.valueError, { s with sessClosed := true })
    else
      .error (.unboundLocalError,
        { s with
            weightageVects := (s.trainEpoch s.weightageVects inputs 0).1,
            weightages := some (s.trainEpoch s.weightageVects inputs 0).1,
            locationsNp := some s.locationVects,
            sessClosed := true })

/-- Python method `SOM.restore_trained()`: returns `False` when no checkpoint
is found; otherwise restores inside `with self._sess:` (raising on a closed
session), refreshes the numpy copies, sets `_trained` and — because the
`with` block exits — leaves the session closed. -/
def SOM.restore_trained (s : SOM) : Except PyErr (Bool × SOM) :=
  if s.checkpointSaved then
    if s.sessClosed then .error .sessionClosed
    else .ok (true, { s with
                        weightages := some s.weightageVects,
                        locationsNp := some s.locationVects,
                        trained := true, sessClosed := true })
  else .ok (false, s)

/-- All ordered pairs `(l[i], l[j])` with `i < j`, in the order the nested
Python loops `for index, j in enumerate(lst): for k in lst[index+1:]`
produce them. -/
def listPairs {α : Type u} : List α → List (α × α)
  | [] => []
  | a :: t => (t.map (fun b => (a, b))) ++ listPairs t

/-- The `np.linalg.norm(pos_x1 - pos_x2)` of two grid locations. -/
def gridDist (p q : ℤ × ℤ) : ℝ :=
  Real.sqrt ((((p.1 - q.1 : ℤ) : ℝ)) ^ 2 + (((p.2 - q.2 : ℤ) : ℝ)) ^ 2)

/-- The intra-class distance loop of `SOM.class_compactness`: for each class
(iterated in first-occurrence order, standing in for CPython's small-int set
iteration order) the sum of pairwise BMU grid distances between the indices
of that class's examples.  `get_BMU` can raise (e.g. `AttributeError` on an
untrained instance), so the computation is monadic. -/
def intraClassDistances (s : SOM) (xs : List (List ℝ)) (ys : List ℕ) :
    Except PyErr (List ℝ) := do
  let classes := ys.dedup
  classes.mapM (fun y => do
    let idxs := (ys.enum.filter (fun p => p.2 = y)).map Prod.fst
    (listPairs idxs).foldlM (fun acc jk => do
      let b1 ← s.get_BMU (xs.getD jk.1 [])
      let b2 ← s.get_BMU (xs.getD jk.2 [])
      pure (acc + gridDist b1.2 b2.2)) (0 : ℝ))

/-- Python method `SOM.class_compactness(xs, ys, train)`.  After the
intra-class distances are computed, the local `class_compactness` is set to
the cached inter-class distance (`self.train_inter_class_distance` or
`self.test_inter_class_distance`).  That cache field is initialised to
`None` in `__init__` and never assigned anywhere else, so:

* when the cache is `None` (always, via this code), the recomputation branch
  runs `class_compactness += np.linalg.norm(x1 - x2)` starting from `None`,
  raising `TypeError` at the first pair (or, with fewer than two examples,
  at the final `class_compactness /= len(xs)`); the computed baseline is in
  any case never stored back into the cache field;
* were the cache somehow a number, the final
  `intra_class_distance / self.train_inter_class_distance` divides a Python
  list by a float, which also raises `TypeError`.

So the method never returns normally. -/
def SOM.class_compactness (s : SOM) (xs : List (List ℝ)) (ys : List ℕ)
    (train : Bool) : Except PyErr (List ℝ) := do
  let _intra ← intraClassDistances s xs ys
  let cached : Option ℝ :=
    if train then s.trainInterClassDistance else s.testInterClassDistance
  match cached with
  | none => .error .typeError
  | some _ => .error .typeError

/-- State of a `HebbianModel` instance (`src/models/som/HebbianModel.py`).
`weights` is the current value of the association matrix;
`weightsNumeric` records whether `self.weights` has been rebound from the
TensorFlow variable to a plain numpy array (line 105 of `train`);
`hasCheckpointDir` whether `checkpoint_dir` was given (not `None`). -/
structure HebbianModel where
  somA : SOM
  somV : SOM
  aDim : ℕ
  vDim : ℕ
  learningRate : ℝ
  nPresentations : ℕ
  nClasses : ℕ
  threshold : ℝ
  tau : ℝ
  hasCheckpointDir : Bool
  weights : List (List ℝ)
  weightsNumeric : Bool
  trained : Bool
  sessClosed : Bool
  checkpointSaved : Bool

/-- The Hebbian update of one presentation:
`delta = 1 - tf.exp(-learning_rate * outer(activation_a, activation_v))`. -/
def hebbDelta (lr : ℝ) (actA actV : List ℝ) : List (List ℝ) :=
  actA.map (fun ai => actV.map (fun vj => 1 - Real.exp (-(lr * (ai * vj)))))

/-- The presentation loop of `HebbianModel.train`: starting from the current
association matrix, for each paired example compute both SOMs' activation
vectors with `get_activations`'s default arguments
(`normalize=True, threshold=True, mode='exp'`) and add the Hebbian delta.
The `sess.run` of the training op raises on a closed session (after the
activations of that presentation were computed). -/
def HebbianModel.presentAll (h : HebbianModel) (inputA inputV : List (List ℝ)) :
    Except PyErr (List (List ℝ)) :=
  (inputA.zip inputV).foldlM (fun w p => do
    let a ← h.somA.get_activations p.1 true true .exp
    let v ← h.somV.get_activations p.2 true true .exp
    if h.sessClosed then .error .sessionClosed
    else pure (matAdd w (hebbDelta h.learningRate a.1 v.1))) h.weights

/-- Python method `HebbianModel.train(input_a, input_v)`: asserts
`len(input_a) == len(input_v) == n_presentations * n_classes`, runs the
presentation loop, then — in a single final step — renormalizes the whole
flattened matrix to sum one and assigns it back.  The body runs inside
`with self._sess:`, so the session is closed on return; `self.weights` is
rebound to the numpy result (line 105). -/
def HebbianModel.train (h : HebbianModel) (inputA inputV : List (List ℝ)) :
    Except PyErr HebbianModel := do
  if ¬(inputA.length = inputV.length ∧ inputV.length = h.nPresentations * h.nClasses) then
    .error .assertionError
  else do
    let wAcc ← h.presentAll inputA inputV
    if h.sessClosed then .error .sessionClosed
    else
      let wSum := matSum wAcc
      .ok { h with
              weights := wAcc.map (List.map (· / wSum)),
              trained := true, weightsNumeric := true,
              checkpointSaved := h.checkpointSaved || h.hasCheckpointDir,
              sessClosed := true }

/-- Python method `HebbianModel.restore_trained()`: with `checkpoint_dir`
equal to `None`, `tf.train.get_checkpoint_state(None)` joins `None` with a
path and raises `TypeError`; with no checkpoint it returns `False`; with a
checkpoint it restores inside `with self._sess:` (raising on a closed
session) and leaves the session closed. -/
def HebbianModel.restore_trained (h : HebbianModel) :
    Except PyErr (Bool × HebbianModel) :=
  if ¬h.hasCheckpointDir then .error .typeError
  else if h.checkpointSaved then
    if h.sessClosed then .error .sessionClosed
    else .ok (true, { h with weightsNumeric := true, sessClosed := true })
  else .ok (false, h)

/-- The `source_som` argument of `HebbianModel.get_bmus_propagate` (the two
accepted string values `'a'` and `'v'`; any other string raises
`ValueError`, which the two-valued type makes unrepresentable). -/
inductive SourceSom where
  | a
  | v
deriving DecidableEq

/-- Python method `HebbianModel.get_bmus_propagate(x, source_som)`: the
source BMU index is `np.argmax` of the source SOM's activation vector
(computed by `get_activations` with default arguments); the target
activation is `weights.T @ activation` for source `'a'` and
`weights @ activation` for source `'v'`; an activation length different
from the target SOM's neuron count triggers `sys.exit(1)`; otherwise the
target BMU index is `np.argmax` of the target activation. -/
def HebbianModel.get_bmus_propagate (h : HebbianModel) (x : List ℝ)
    (src : SourceSom) : Except PyErr (ℕ × ℕ) := do
  let fromSom := match src with | .v => h.somV | .a => h.somA
  let toSom := match src with | .v => h.somA | .a => h.somV
  let act ← fromSom.get_activations x true true .exp
  let sourceBmuIndex := pyArgmax act.1
  let targetActivation := match src with
    | .a => matVec (transposeM h.weights) act.1
    | .v => matVec h.weights act.1
  if targetActivation.length = toSom.n * toSom.m then
    .ok (sourceBmuIndex, pyArgmax targetActivation)
  else .error .systemExit

/-! ### Helper lemmas -/

theorem numBatches_pos {len bs : ℕ} (hl : 0 < len) (hb : 0 < bs) :
    0 < numBatches len bs := by
  have : bs ≤ len + bs - 1 := by omega
  exact (Nat.one_le_div_iff hb).mpr this

/-- The batch loop of one epoch unfolds to: no update for zero batches,
otherwise — because of the unconditional `break` — exactly one update on the
slice `input_vects[0:batch_size]`. -/
theorem SOM.trainEpoch_eq (s : SOM) (w inputs : List (List ℝ)) (iterNo : ℕ) :
    s.trainEpoch w inputs iterNo =
      (if numBatches inputs.length s.batchSize = 0 then w
       else applyBatchUpdate s w (inputs.take s.batchSize) iterNo,
       { assertedSlices := if iterNo % 5 = 0 then [inputs.take 1] else []
         appliedSlices := if numBatches inputs.length s.batchSize = 0 then []
           else [inputs.take s.batchSize] }) := by
  unfold SOM.trainEpoch forRange
  rcases hnb : numBatches inputs.length s.batchSize with _ | k
  · simp [forRangeAux]
  · simp [List.range_succ_eq_map, forRangeAux, batchSlice]

theorem weightDelta_length (s : SOM) (w batch : List (List ℝ)) (iterNo : ℕ) :
    (weightDelta s w batch iterNo).length = w.length := by
  simp [weightDelta]

theorem applyBatchUpdate_length (s : SOM) (w batch : List (List ℝ)) (iterNo : ℕ) :
    (applyBatchUpdate s w batch iterNo).length = w.length := by
  simp [applyBatchUpdate, matAdd, weightDelta_length]

theorem neuronLocations_length (m n : ℕ) : (neuronLocations m n).length = m * n := by
  induction m with
  | zero => simp [neuronLocations]
  | succ k ih =>
    have : neuronLocations (k + 1) n =
        neuronLocations k n ++ (List.range n).map (fun j : ℕ => ((k : ℤ), (j : ℤ))) := by
      unfold neuronLocations
      rw [List.range_succ, List.flatMap_append, List.flatMap_cons, List.flatMap_nil,
        List.append_nil]
    rw [this, List.length_append, ih, List.length_map, List.length_range, Nat.succ_mul]

theorem SOM.runEpochs_length (s : SOM) (inputs : List (List ℝ)) (k : ℕ) :
    (s.runEpochs inputs k).1.length = s.weightageVects.length := by
  induction k with
  | zero => rfl
  | succ k ih =>
    show (s.trainEpoch (s.runEpochs inputs k).1 inputs k).1.length = _
    rw [SOM.trainEpoch_eq]
    by_cases h : numBatches inputs.length s.batchSize = 0 <;>
      simp [h, applyBatchUpdate_length, ih]

/-- A small concrete SOM instance (1x1 grid, one input feature,
`batch_size=1`, `n_iterations=2`), fresh from the constructor, used as the
concrete input of several witnesses and counterexamples. -/
def somSmall : SOM :=
  { m := 1, n := 1, dim := 1, alpha := 0.3, sigma := 0.5, tau := 0.5, threshold := 0.6,
    batchSize := 1, nIterations := 2,
    weightageVects := [[0]], locationVects := [(0, 0)],
    weightages := none, locationsNp := none, trained := false,
    sessClosed := false, checkpointSaved := false,
    trainInterClassDistance := none, testInterClassDistance := none }

/-- C1: in every epoch of `SOM.train`, only the first batch of input vectors
is applied to the neuron weights — the batch loop exits unconditionally
after one batch, so although for an input set larger than one batch there
is more than one batch (`ceil(len/batch_size) > 1`), the epoch's weight
update is exactly one application of the batch `input_vects[0:batch_size]`,
and hence depends only on that slice. -/
theorem C1_only_first_batch_applied (s : SOM) (w inputs : List (List ℝ)) (iterNo : ℕ)
    (hbs : 0 < s.batchSize) (hlen : s.batchSize < inputs.length) :
    (s.trainEpoch w inputs iterNo).1 = applyBatchUpdate s w (inputs.take s.batchSize) iterNo ∧
    (s.trainEpoch w inputs iterNo).2.appliedSlices = [inputs.take s.batchSize] ∧
    1 < numBatches inputs.length s.batchSize := by
  have h2 : 1 < numBatches inputs.length s.batchSize := by
    have h : 2 * s.batchSize ≤ inputs.length + s.batchSize - 1 := by omega
    have h' := (Nat.le_div_iff_mul_le hbs).mpr h
    simpa [numBatches] using h'
  have h0 : numBatches inputs.length s.batchSize ≠ 0 := by omega
  rw [SOM.trainEpoch_eq]
  exact ⟨by simp [h0], by simp [h0], h2⟩

/-- Witness for C1: with batch size 1 and two input vectors, the epoch
update is the one-batch update on `input_vects[0:1]`. -/
theorem C1_only_first_batch_applied_witness :
    0 < somSmall.batchSize ∧ somSmall.batchSize < ([[0], [1]] : List (List ℝ)).length ∧
    ((somSmall.trainEpoch [[0]] [[0], [1]] 0).1
        = applyBatchUpdate somSmall [[0]] (([[0], [1]] : List (List ℝ)).take somSmall.batchSize) 0 ∧
      (somSmall.trainEpoch [[0]] [[0], [1]] 0).2.appliedSlices
        = [([[0], [1]] : List (List ℝ)).take somSmall.batchSize] ∧
      1 < numBatches ([[0], [1]] : List (List ℝ)).length somSmall.batchSize) :=
  ⟨by decide, by decide,
    C1_only_first_batch_applied somSmall [[0]] [[0], [1]] 0 (by decide) (by decide)⟩

/-- C9: for every SOM engine, the number of neuron weight vectors and the
number of grid locations both equal `m*n` right after construction, and the
weight-update of every training epoch preserves the weight matrix's length. -/
theorem C9_grid_sizes_invariant (m n dim nIter : ℕ) (alphaArg sigmaArg : Option ℝ)
    (tauArg thresholdArg : ℝ) (bs : ℕ) (init : ℕ → ℕ → ℝ)
    (inputs : List (List ℝ)) (k : ℕ) :
    (SOM.construct m n dim nIter alphaArg sigmaArg tauArg thresholdArg bs init).weightageVects.length = m * n ∧
    (SOM.construct m n dim nIter alphaArg sigmaArg tauArg thresholdArg bs init).locationVects.length = m * n ∧
    ((SOM.construct m n dim nIter alphaArg sigmaArg tauArg thresholdArg bs init).runEpochs inputs k).1.length = m * n := by
  refine ⟨?_, ?_, ?_⟩
  · simp [SOM.construct]
  · simp [SOM.construct, neuronLocations_length]
  · rw [SOM.runEpochs_length]
    simp [SOM.construct]

/-- The engine `somSmall` with batch size 2 instead of 1. -/
def somSmall2 : SOM := { somSmall with batchSize := 2 }

/-- C6 counterexample: in epoch 0 — the only epoch a `SOM.train` call ever
executes (the summary step then raises, see `SOM.train` and C8) — with
batch size 2 and inputs `[[0], [1]]`, the NaN assert is evaluated only on
the delta computed from `input_vects[0:1] = [[0]]`, while the delta applied
to the weights is computed from the full first batch
`input_vects[0:2] = [[0], [1]]`: a different delta that is never
NaN-checked, refuting the claim that every computed weight delta is checked
for every batch. -/
theorem C6_counterexample :
    (somSmall2.trainEpoch [[0]] [[0], [1]] 0).2.assertedSlices = [[[0]]] ∧
    (somSmall2.trainEpoch [[0]] [[0], [1]] 0).2.appliedSlices = [[[0], [1]]] ∧
    ([[[(0 : ℝ)], [1]]] : List (List (List ℝ))) ≠ [[[0]]] := by
  refine ⟨rfl, rfl, by simp⟩

/-- C6 (amended): in the epoch body of `SOM.train` as written, the NaN
assert is evaluated only on epochs whose index is a multiple of 5 — in
execution only epoch 0, since the call crashes in that epoch's summary step
(see C8) — and then only on the delta computed from `input_vects[0:1]`; the
batch delta actually applied to the weights (always exactly the first batch
`input_vects[0:batch_size]`) is itself never NaN-checked. -/
theorem C6_nan_check_schedule (s : SOM) (w inputs : List (List ℝ)) (iterNo : ℕ)
    (hbs : 0 < s.batchSize) (hlen : 0 < inputs.length) :
    (s.trainEpoch w inputs iterNo).2.assertedSlices
      = (if iterNo % 5 = 0 then [inputs.take 1] else []) ∧
    (s.trainEpoch w inputs iterNo).2.appliedSlices = [inputs.take s.batchSize] := by
  have h0 : numBatches inputs.length s.batchSize ≠ 0 :=
    (numBatches_pos hlen hbs).ne'
  rw [SOM.trainEpoch_eq]
  exact ⟨rfl, by simp [h0]⟩

/-- Witness for the amended C6 at epoch 0 with batch size 2: the asserted
slice is `input_vects[0:1]`, the applied slice the full first batch. -/
theorem C6_nan_check_schedule_witness :
    0 < somSmall2.batchSize ∧ 0 < ([[0], [1]] : List (List ℝ)).length ∧
    ((somSmall2.trainEpoch [[0]] [[0], [1]] 0).2.assertedSlices
        = (if 0 % 5 = 0 then [([[0], [1]] : List (List ℝ)).take 1] else []) ∧
     (somSmall2.trainEpoch [[0]] [[0], [1]] 0).2.appliedSlices
        = [([[0], [1]] : List (List ℝ)).take somSmall2.batchSize]) :=
  ⟨by decide, by decide,
    C6_nan_check_schedule somSmall2 [[0]] [[0], [1]] 0 (by decide) (by decide)⟩

/-- C4 counterexample: `get_BMU` on a freshly constructed engine fails with
`AttributeError` (reading the unset `self._weightages`), which is not the
`ValueError("SOM not trained yet")` state error the claim requires. -/
theorem C4_counterexample :
    (SOM.construct 2 2 1 50 none none 0.5 0.6 500 (fun _ _ => 0)).get_BMU [0]
      = .error .attributeError ∧
    PyErr.attributeError ≠ PyErr.valueErrorNotTrained :=
  ⟨rfl, by decide⟩

/-- C4 (amended): `get_BMU` on a freshly constructed, untrained SOM engine
does fail fast for every input vector, but with `AttributeError` — the
method reads `self._weightages` without a trained-state check — whereas the
state-checked query `map_vects` fails with the
`ValueError("SOM not trained yet")` state error. -/
theorem C4_untrained_queries (m n dim nIter : ℕ) (alphaArg sigmaArg : Option ℝ)
    (tauArg thresholdArg : ℝ) (bs : ℕ) (init : ℕ → ℕ → ℝ)
    (x : List ℝ) (xs : List (List ℝ)) :
    (SOM.construct m n dim nIter alphaArg sigmaArg tauArg thresholdArg bs init).get_BMU x
      = .error .attributeError ∧
    (SOM.construct m n dim nIter alphaArg sigmaArg tauArg thresholdArg bs init).map_vects xs
      = .error .valueErrorNotTrained :=
  ⟨rfl, rfl⟩

/-- C8: a SOM engine never reaches the trained state by completing
`train()`: every call raises before `self._trained` is set or any
checkpoint is saved (without class labels, epoch 0 dies with
`UnboundLocalError` while building the summary feed_dict), so the claimed
`Trained -> Trained` behaviour of a `restore_trained()` after a returned
`train()` is about an unreachable state — after the failed call, a restore
finds no checkpoint (when none pre-existed) and returns `False`. -/
theorem C8_train_never_completes (s : SOM) (inputs : List (List ℝ)) :
    ∃ e s', s.train inputs = .error (e, s') ∧
      s'.trained = s.trained ∧ s'.checkpointSaved = s.checkpointSaved ∧
      (s.checkpointSaved = false → s'.restore_trained = .ok (false, s')) := by
  unfold SOM.train
  by_cases hn : s.nIterations = 0
  · rw [if_pos hn]
    cases hlocs : s.locationsNp with
    | none =>
      exact ⟨.attributeError, _, rfl, rfl, rfl,
        fun hcs => by simp [SOM.restore_trained, hcs]⟩
    | some locs =>
      exact ⟨.unboundLocalError, _, rfl, rfl, rfl,
        fun hcs => by simp [SOM.restore_trained, hcs]⟩
  · rw [if_neg hn]
    by_cases hc : s.sessClosed
    · rw [if_pos hc]
      exact ⟨.sessionClosed, s, rfl, rfl, rfl,
        fun hcs => by simp [SOM.restore_trained, hcs]⟩
    · rw [if_neg hc]
      by_cases he : inputs.isEmpty
      · rw [if_pos he]
        exact ⟨.valueError, _, rfl, rfl, rfl,
          fun hcs => by simp [SOM.restore_trained, hcs]⟩
      · rw [if_neg he]
        exact ⟨.unboundLocalError, _, rfl, rfl, rfl,
          fun hcs => by simp [SOM.restore_trained, hcs]⟩

/-- A trained 1x2 concrete SOM (neuron weights `[[0], [1]]`), used as the
concrete instance of several claims. -/
def somTrained : SOM :=
  { m := 1, n := 2, dim := 1, alpha := 0.3, sigma := 1, tau := 0.5, threshold := 0.6,
    batchSize := 500, nIterations := 50,
    weightageVects := [[0], [1]], locationVects := [(0, 0), (0, 1)],
    weightages := some [[0], [1]], locationsNp := some [(0, 0), (0, 1)],
    trained := true, sessClosed := true, checkpointSaved := true,
    trainInterClassDistance := none, testInterClassDistance := none }

/-- C5: `class_compactness` never returns the claimed per-class compactness
values: its inter-class-distance cache is `None` (it is never assigned
anywhere), so the recomputation branch accumulates into a `None`-initialised
local and the call raises `TypeError` — here on a trained SOM with two
examples in two classes, the first call for the train split. -/
theorem C5_class_compactness_type_error :
    somTrained.class_compactness [[0], [1]] [0, 1] true = .error .typeError := by
  rfl

@[simp] theorem except_bind_ok {ε α β : Type u} (a : α) (f : α → Except ε β) :
    (Except.ok a >>= f : Except ε β) = f a := rfl

@[simp] theorem except_bind_error {ε α β : Type u} (e : ε) (f : α → Except ε β) :
    (Except.error e >>= f : Except ε β) = Except.error e := rfl

@[simp] theorem except_pure_eq_ok {ε α : Type u} (a : α) :
    (pure a : Except ε α) = Except.ok a := rfl

theorem listSum_map_div (l : List ℝ) (c : ℝ) :
    (l.map (fun x => x / c)).sum = l.sum / c := by
  induction l with
  | nil => simp
  | cons a t ih => simp [ih, add_div]

theorem matSum_map_div (M : List (List ℝ)) (c : ℝ) :
    matSum (M.map (List.map (fun x => x / c))) = matSum M / c := by
  induction M with
  | nil => simp [matSum]
  | cons r t ih =>
    simp only [matSum, List.map_cons, List.sum_cons] at ih ⊢
    rw [listSum_map_div, ih, add_div]

/-- A trained 1x1 concrete SOM (single neuron weight `[[1]]`), used as both
modalities of the concrete Hebbian associator below. -/
def somOne : SOM :=
  { m := 1, n := 1, dim := 1, alpha := 0.3, sigma := 0.5, tau := 0.5, threshold := 0.6,
    batchSize := 500, nIterations := 50,
    weightageVects := [[1]], locationVects := [(0, 0)],
    weightages := some [[1]], locationsNp := some [(0, 0)],
    trained := true, sessClosed := true, checkpointSaved := true,
    trainInterClassDistance := none, testInterClassDistance := none }

/-- On a single-neuron SOM, `get_activations` with default arguments always
returns the all-zero activation vector: min-max normalization of a
one-element vector is `0/0`, numpy-degenerate, modelled as `0`. -/
theorem somOne_acts (x : List ℝ) :
    somOne.get_activations x true true .exp = .ok ([0], [(0, 0)]) := by
  simp [SOM.get_activations, somOne, rawActivations, minMaxNormalize,
    applyThreshold, pyMax, pyMin, ite_self]

/-- A concrete Hebbian associator over two trained single-neuron SOMs, with
one presentation of one class and an initial association matrix `[[1]]`. -/
def hebbW : HebbianModel :=
  { somA := somOne, somV := somOne, aDim := 1, vDim := 1, learningRate := 10,
    nPresentations := 1, nClasses := 1, threshold := 0.6, tau := 0.5,
    hasCheckpointDir := true, weights := [[1]], weightsNumeric := false,
    trained := false, sessClosed := false, checkpointSaved := false }

/-- The presentation loop of `hebbW` on one pair of examples: both
activation vectors are `[0]`, so the Hebbian delta is
`[[1 - exp(-10*0)]] = [[0]]` and the accumulated matrix stays `[[1]]`. -/
theorem hebbW_presentAll :
    hebbW.presentAll [[5]] [[7]] = .ok [[1]] := by
  simp [HebbianModel.presentAll, hebbW, somOne_acts, hebbDelta, matAdd,
    Real.exp_zero]

/-- C3: for an associator over two trained SOMs and any cardinality-valid
training input, `HebbianModel.train` accumulates the Hebbian deltas of all
presentations without intermediate normalization and then renormalizes the
flattened matrix exactly once at the end, so the trained association matrix
sums to exactly `1` (whenever the accumulated total is nonzero). -/
theorem C3_assoc_matrix_sums_to_one (h : HebbianModel) (a v : List (List ℝ))
    (W : List (List ℝ))
    (hln : a.length = v.length ∧ v.length = h.nPresentations * h.nClasses)
    (hsess : h.sessClosed = false)
    (hP : h.presentAll a v = .ok W)
    (hS : matSum W ≠ 0) :
    h.train a v = .ok { h with
        weights := W.map (List.map (fun x => x / matSum W)),
        trained := true, weightsNumeric := true,
        checkpointSaved := h.checkpointSaved || h.hasCheckpointDir,
        sessClosed := true } ∧
    matSum (W.map (List.map (fun x => x / matSum W))) = 1 := by
  constructor
  · simp [HebbianModel.train, hln.1, hln.2, hP, hsess]
  · rw [matSum_map_div]
    exact div_self hS

/-- Witness for C3 at the concrete associator `hebbW`. -/
theorem C3_assoc_matrix_sums_to_one_witness :
    (([[5]] : List (List ℝ)).length = ([[7]] : List (List ℝ)).length ∧
      ([[7]] : List (List ℝ)).length = hebbW.nPresentations * hebbW.nClasses) ∧
    hebbW.sessClosed = false ∧
    hebbW.presentAll [[5]] [[7]] = .ok [[1]] ∧
    matSum [[1]] ≠ 0 ∧
    (hebbW.train [[5]] [[7]] = .ok { hebbW with
        weights := [[1]].map (List.map (fun x => x / matSum [[1]])),
        trained := true, weightsNumeric := true,
        checkpointSaved := hebbW.checkpointSaved || hebbW.hasCheckpointDir,
        sessClosed := true } ∧
      matSum (([[1]] : List (List ℝ)).map (List.map (fun x => x / matSum [[1]]))) = 1) :=
  ⟨⟨rfl, rfl⟩, rfl, hebbW_presentAll, by norm_num [matSum],
    C3_assoc_matrix_sums_to_one hebbW [[5]] [[7]] [[1]] ⟨rfl, rfl⟩ rfl
      hebbW_presentAll (by norm_num [matSum])⟩

/-- C10: `HebbianModel.train` is single-shot.  Whenever a call to `train`
succeeds, the resulting instance has its `weights` attribute rebound to the
final normalized numpy matrix and its session closed, is in the trained
state, and every further `train` call — and any `restore_trained` call —
on it fails with some exception instead of training again. -/
theorem C10_hebbian_single_shot (h : HebbianModel) (a v : List (List ℝ))
    (h2 : HebbianModel) (htr : h.train a v = .ok h2) :
    h2.weightsNumeric = true ∧ h2.sessClosed = true ∧ h2.trained = true ∧
    (∀ a2 v2, ∃ e, h2.train a2 v2 = .error e) ∧
    (∃ e, h2.restore_trained = .error e) := by
  unfold HebbianModel.train at htr
  by_cases hln : (a.length = v.length ∧ v.length = h.nPresentations * h.nClasses)
  · rw [if_neg (not_not_intro hln)] at htr
    cases hP : h.presentAll a v with
    | error e => rw [hP] at htr; simp at htr
    | ok W =>
      rw [hP, except_bind_ok] at htr
      by_cases hc : h.sessClosed
      · simp [hc] at htr
      · rw [if_neg hc, Except.ok.injEq] at htr
        subst htr
        refine ⟨rfl, rfl, rfl, ?_, ?_⟩
        · intro a2 v2
          unfold HebbianModel.train
          by_cases hln2 : (a2.length = v2.length ∧
              v2.length = h.nPresentations * h.nClasses)
          · rw [if_neg (not_not_intro hln2)]
            cases hz : a2.zip v2 with
            | nil =>
              exact ⟨.sessionClosed, by simp [HebbianModel.presentAll, hz]⟩
            | cons p rest =>
              cases hA : h.somA.get_activations p.1 true true .exp with
              | error e =>
                exact ⟨e, by simp [HebbianModel.presentAll, hz, hA]⟩
              | ok actA =>
                cases hV : h.somV.get_activations p.2 true true .exp with
                | error e =>
                  exact ⟨e, by simp [HebbianModel.presentAll, hz, hA, hV]⟩
                | ok actV =>
                  exact ⟨.sessionClosed, by simp [HebbianModel.presentAll, hz, hA, hV]⟩
          · exact ⟨.assertionError, by rw [if_pos hln2]⟩
        · by_cases hd : h.hasCheckpointDir
          · exact ⟨.sessionClosed, by simp [HebbianModel.restore_trained, hd]⟩
          · exact ⟨.typeError, by simp [HebbianModel.restore_trained, hd]⟩
  · rw [if_pos hln] at htr
    simp at htr

/-- Witness for C10 at the concrete associator `hebbW`. -/
theorem C10_hebbian_single_shot_witness :
    hebbW.train [[5]] [[7]] = .ok { hebbW with
        weights := [[1]].map (List.map (fun x => x / matSum [[1]])),
        trained := true, weightsNumeric := true,
        checkpointSaved := hebbW.checkpointSaved || hebbW.hasCheckpointDir,
        sessClosed := true } ∧
    ({ hebbW with
        weights := [[1]].map (List.map (fun x => x / matSum [[1]])),
        trained := true, weightsNumeric := true,
        checkpointSaved := hebbW.checkpointSaved || hebbW.hasCheckpointDir,
        sessClosed := true } : HebbianModel).weightsNumeric = true ∧
    ({ hebbW with
        weights := [[1]].map (List.map (fun x => x / matSum [[1]])),
        trained := true, weightsNumeric := true,
        checkpointSaved := hebbW.checkpointSaved || hebbW.hasCheckpointDir,
        sessClosed := true } : HebbianModel).sessClosed = true ∧
    ({ hebbW with
        weights := [[1]].map (List.map (fun x => x / matSum [[1]])),
        trained := true, weightsNumeric := true,
        checkpointSaved := hebbW.checkpointSaved || hebbW.hasCheckpointDir,
        sessClosed := true } : HebbianModel).trained = true ∧
    (∀ a2 v2, ∃ e, ({ hebbW with
        weights := [[1]].map (List.map (fun x => x / matSum [[1]])),
        trained := true, weightsNumeric := true,
        checkpointSaved := hebbW.checkpointSaved || hebbW.hasCheckpointDir,
        sessClosed := true } : HebbianModel).train a2 v2 = .error e) ∧
    (∃ e, ({ hebbW with
        weights := [[1]].map (List.map (fun x => x / matSum [[1]])),
        trained := true, weightsNumeric := true,
        checkpointSaved := hebbW.checkpointSaved || hebbW.hasCheckpointDir,
        sessClosed := true } : HebbianModel).restore_trained = .error e) := by
  have htr : hebbW.train [[5]] [[7]] = .ok { hebbW with
      weights := [[1]].map (List.map (fun x => x / matSum [[1]])),
      trained := true, weightsNumeric := true,
      checkpointSaved := hebbW.checkpointSaved || hebbW.hasCheckpointDir,
      sessClosed := true } :=
    (C3_assoc_matrix_sums_to_one hebbW [[5]] [[7]] [[1]] ⟨rfl, rfl⟩ rfl
      hebbW_presentAll (by norm_num [matSum])).1
  exact ⟨htr, C10_hebbian_single_shot hebbW [[5]] [[7]] _ htr⟩

/-- All entries of a list are equal (the degenerate case of min-max
normalization). -/
def pairwiseEqual (l : List ℝ) : Prop := ∀ a ∈ l, ∀ b ∈ l, a = b

theorem le_foldl_max (l : List ℝ) (acc : ℝ) : acc ≤ l.foldl max acc := by
  induction l generalizing acc with
  | nil => exact le_rfl
  | cons x t ih => exact le_trans (le_max_left acc x) (ih (max acc x))

theorem mem_le_foldl_max {l : List ℝ} {a : ℝ} (h : a ∈ l) (acc : ℝ) :
    a ≤ l.foldl max acc := by
  induction l generalizing acc with
  | nil => cases h
  | cons x t ih =>
    rcases List.mem_cons.mp h with rfl | hmem
    · exact le_trans (le_max_right acc a) (le_foldl_max t (max acc a))
    · exact ih hmem (max acc x)

theorem foldl_max_le {l : List ℝ} {b : ℝ} (acc : ℝ) (h1 : acc ≤ b)
    (h2 : ∀ a ∈ l, a ≤ b) : l.foldl max acc ≤ b := by
  induction l generalizing acc with
  | nil => exact h1
  | cons x t ih =>
    exact ih (max acc x) (max_le h1 (h2 x (List.mem_cons_self x t)))
      (fun a ha => h2 a (List.mem_cons_of_mem x ha))

theorem foldl_max_mem (l : List ℝ) (acc : ℝ) :
    l.foldl max acc = acc ∨ l.foldl max acc ∈ l := by
  induction l generalizing acc with
  | nil => exact Or.inl rfl
  | cons x t ih =>
    rcases ih (max acc x) with h | h
    · rcases max_choice acc x with hm | hm
      · exact Or.inl (by rw [List.foldl_cons, h, hm])
      · exact Or.inr (by rw [List.foldl_cons, h, hm]; exact List.mem_cons_self x t)
    · exact Or.inr (List.mem_cons_of_mem x h)

theorem foldl_min_le (l : List ℝ) (acc : ℝ) : l.foldl min acc ≤ acc := by
  induction l generalizing acc with
  | nil => exact le_rfl
  | cons x t ih => exact le_trans (ih (min acc x)) (min_le_left acc x)

theorem foldl_min_le_mem {l : List ℝ} {a : ℝ} (h : a ∈ l) (acc : ℝ) :
    l.foldl min acc ≤ a := by
  induction l generalizing acc with
  | nil => cases h
  | cons x t ih =>
    rcases List.mem_cons.mp h with rfl | hmem
    · exact le_trans (foldl_min_le t (min acc a)) (min_le_right acc a)
    · exact ih hmem (min acc x)

theorem le_foldl_min {l : List ℝ} {b : ℝ} (acc : ℝ) (h1 : b ≤ acc)
    (h2 : ∀ a ∈ l, b ≤ a) : b ≤ l.foldl min acc := by
  induction l generalizing acc with
  | nil => exact h1
  | cons x t ih =>
    exact ih (min acc x) (le_min h1 (h2 x (List.mem_cons_self x t)))
      (fun a ha => h2 a (List.mem_cons_of_mem x ha))

theorem foldl_min_mem (l : List ℝ) (acc : ℝ) :
    l.foldl min acc = acc ∨ l.foldl min acc ∈ l := by
  induction l generalizing acc with
  | nil => exact Or.inl rfl
  | cons x t ih =>
    rcases ih (min acc x) with h | h
    · rcases min_choice acc x with hm | hm
      · exact Or.inl (by rw [List.foldl_cons, h, hm])
      · exact Or.inr (by rw [List.foldl_cons, h, hm]; exact List.mem_cons_self x t)
    · exact Or.inr (List.mem_cons_of_mem x h)

theorem headI_mem_of_ne_nil {l : List ℝ} (h : l ≠ []) : l.headI ∈ l := by
  cases l with
  | nil => exact absurd rfl h
  | cons a t => exact List.mem_cons_self a t

theorem pyMax_mem {l : List ℝ} (h : l ≠ []) : pyMax l ∈ l := by
  rcases foldl_max_mem l l.headI with h1 | h1
  · rw [pyMax, h1]; exact headI_mem_of_ne_nil h
  · exact h1

theorem le_pyMax {l : List ℝ} {a : ℝ} (h : a ∈ l) : a ≤ pyMax l :=
  mem_le_foldl_max h _

theorem pyMax_le {l : List ℝ} {b : ℝ} (h : l ≠ []) (h2 : ∀ a ∈ l, a ≤ b) :
    pyMax l ≤ b :=
  foldl_max_le _ (h2 _ (headI_mem_of_ne_nil h)) h2

theorem pyMin_mem {l : List ℝ} (h : l ≠ []) : pyMin l ∈ l := by
  rcases foldl_min_mem l l.headI with h1 | h1
  · rw [pyMin, h1]; exact headI_mem_of_ne_nil h
  · exact h1

theorem pyMin_le {l : List ℝ} {a : ℝ} (h : a ∈ l) : pyMin l ≤ a :=
  foldl_min_le_mem h _

theorem le_pyMin {l : List ℝ} {b : ℝ} (h : l ≠ []) (h2 : ∀ a ∈ l, b ≤ a) :
    b ≤ pyMin l :=
  le_foldl_min _ (h2 _ (headI_mem_of_ne_nil h)) h2

theorem pyMin_lt_pyMax_of_not_pairwiseEqual {l : List ℝ} (h : l ≠ [])
    (h2 : ¬ pairwiseEqual l) : pyMin l < pyMax l := by
  rcases lt_or_eq_of_le (le_trans (pyMin_le (headI_mem_of_ne_nil h)) (le_pyMax (headI_mem_of_ne_nil h))) with hlt | heq
  · exact hlt
  · exfalso
    exact h2 (fun a ha b hb =>
      le_antisymm (le_trans (le_pyMax ha) (heq ▸ pyMin_le hb))
        (le_trans (le_pyMax hb) (heq ▸ pyMin_le ha)))

theorem minMaxNormalize_bounds {l : List ℝ} (hlt : pyMin l < pyMax l) :
    ∀ y ∈ minMaxNormalize l, 0 ≤ y ∧ y ≤ 1 := by
  intro y hy
  obtain ⟨a, ha, rfl⟩ := List.mem_map.mp hy
  have hpos : 0 < pyMax l - pyMin l := sub_pos.mpr hlt
  constructor
  · exact div_nonneg (sub_nonneg.mpr (pyMin_le ha)) hpos.le
  · exact (div_le_one hpos).mpr (sub_le_sub_right (le_pyMax ha) _)

theorem one_mem_minMaxNormalize {l : List ℝ} (h : l ≠ [])
    (hlt : pyMin l < pyMax l) : (1 : ℝ) ∈ minMaxNormalize l :=
  List.mem_map.mpr ⟨pyMax l, pyMax_mem h,
    div_self (sub_ne_zero.mpr hlt.ne')⟩

theorem zero_mem_minMaxNormalize {l : List ℝ} (h : l ≠ []) :
    (0 : ℝ) ∈ minMaxNormalize l :=
  List.mem_map.mpr ⟨pyMin l, pyMin_mem h, by rw [sub_self, zero_div]⟩

theorem applyThreshold_bounds {t : ℝ} {l : List ℝ}
    (h : ∀ y ∈ l, 0 ≤ y ∧ y ≤ 1) : ∀ y ∈ applyThreshold t l, 0 ≤ y ∧ y ≤ 1 := by
  intro y hy
  obtain ⟨a, ha, rfl⟩ := List.mem_map.mp hy
  by_cases hc : a < t
  · simp [hc]
  · simpa [hc] using h a ha

theorem one_mem_applyThreshold {t : ℝ} (ht : t ≤ 1) {l : List ℝ}
    (h : (1 : ℝ) ∈ l) : (1 : ℝ) ∈ applyThreshold t l :=
  List.mem_map.mpr ⟨1, h, if_neg (not_lt.mpr ht)⟩

theorem zero_mem_applyThreshold {t : ℝ} {l : List ℝ} (h : (0 : ℝ) ∈ l) :
    (0 : ℝ) ∈ applyThreshold t l :=
  List.mem_map.mpr ⟨0, h, ite_self 0⟩

theorem minMaxNormalize_of_pairwiseEqual {l : List ℝ} (h : pairwiseEqual l) :
    minMaxNormalize l = l.map (fun _ => 0) := by
  rcases eq_or_ne l [] with rfl | hne
  · rfl
  · exact List.map_congr_left (fun a ha => by
      rw [h a ha (pyMin l) (pyMin_mem hne), sub_self, zero_div])

theorem applyThreshold_map_zero (t : ℝ) (l : List ℝ) :
    applyThreshold t (l.map (fun _ => 0)) = l.map (fun _ => 0) := by
  unfold applyThreshold
  rw [List.map_map]
  exact List.map_congr_left (fun a _ => ite_self 0)

/-- Unfolding of `get_activations` with `normalize=True` on an instance
whose numpy attributes are set and whose neuron list is non-empty. -/
theorem SOM.get_activations_normalize_eq (s : SOM) (x : List ℝ)
    (ws : List (List ℝ)) (locs : List (ℤ × ℤ)) (thresh : Bool) (mode : ActMode)
    (hws : s.weightages = some ws) (hlocs : s.locationsNp = some locs)
    (hne : ws ≠ []) :
    s.get_activations x true thresh mode =
      .ok ((if thresh then
              applyThreshold s.threshold (minMaxNormalize (rawActivations s.tau mode ws x))
            else minMaxNormalize (rawActivations s.tau mode ws x)),
           (List.range ws.length).map (fun i => locs.getD i (0, 0))) := by
  obtain ⟨w0, ws', rfl⟩ := List.exists_cons_of_ne_nil hne
  cases thresh <;>
    simp [SOM.get_activations, hws, hlocs, rawActivations]

/-- C2 (amended): for every trained SOM whose activation threshold is at
most `1` (the constructor default is `0.6`) and every input vector,
`get_activations` with `normalize=true` returns activations that all lie in
`[0, 1]`; when the raw activations are not all equal, the maximum returned
activation is exactly `1.0` and the minimum exactly `0.0`; when they are all
equal (degenerate case), the result is the all-zero vector.  (Without the
threshold bound the claim fails — see the counterexample.) -/
theorem C2_normalized_activation_range (s : SOM) (x : List ℝ)
    (ws : List (List ℝ)) (locs : List (ℤ × ℤ)) (thresh : Bool) (mode : ActMode)
    (hws : s.weightages = some ws) (hlocs : s.locationsNp = some locs)
    (hne : ws ≠ []) (hthr : s.threshold ≤ 1) :
    (¬ pairwiseEqual (rawActivations s.tau mode ws x) →
      ∃ acts pos, s.get_activations x true thresh mode = .ok (acts, pos) ∧
        (∀ y ∈ acts, 0 ≤ y ∧ y ≤ 1) ∧ pyMax acts = 1 ∧ pyMin acts = 0) ∧
    (pairwiseEqual (rawActivations s.tau mode ws x) →
      ∃ pos, s.get_activations x true thresh mode
        = .ok ((rawActivations s.tau mode ws x).map (fun _ => 0), pos)) := by
  have hraw_ne : rawActivations s.tau mode ws x ≠ [] := by
    simpa [rawActivations] using hne
  have hget := s.get_activations_normalize_eq x ws locs thresh mode hws hlocs hne
  constructor
  · intro hnp
    have hlt := pyMin_lt_pyMax_of_not_pairwiseEqual hraw_ne hnp
    have hbounds := minMaxNormalize_bounds hlt
    have h1 := one_mem_minMaxNormalize hraw_ne hlt
    have h0 := zero_mem_minMaxNormalize hraw_ne
    have hnorm_ne : minMaxNormalize (rawActivations s.tau mode ws x) ≠ [] := by
      simpa [minMaxNormalize] using hraw_ne
    cases thresh with
    | false =>
      refine ⟨_, _, hget, hbounds, ?_, ?_⟩
      · exact le_antisymm (pyMax_le hnorm_ne (fun y hy => (hbounds y hy).2)) (le_pyMax h1)
      · exact le_antisymm (pyMin_le h0) (le_pyMin hnorm_ne (fun y hy => (hbounds y hy).1))
    | true =>
      have hbounds' := applyThreshold_bounds (t := s.threshold) hbounds
      have h1' := one_mem_applyThreshold hthr h1
      have h0' := zero_mem_applyThreshold (t := s.threshold) h0
      have hthr_ne : applyThreshold s.threshold
          (minMaxNormalize (rawActivations s.tau mode ws x)) ≠ [] := by
        simpa [applyThreshold] using hnorm_ne
      refine ⟨_, _, hget, hbounds', ?_, ?_⟩
      · exact le_antisymm (pyMax_le hthr_ne (fun y hy => (hbounds' y hy).2)) (le_pyMax h1')
      · exact le_antisymm (pyMin_le h0') (le_pyMin hthr_ne (fun y hy => (hbounds' y hy).1))
  · intro hp
    refine ⟨(List.range ws.length).map (fun i => locs.getD i (0, 0)), ?_⟩
    rw [hget, minMaxNormalize_of_pairwiseEqual hp]
    cases thresh with
    | false => rfl
    | true => rw [if_pos rfl, applyThreshold_map_zero]

/-- The SOM `somTrained` with activation threshold `3/2` instead of the
default `0.6`. -/
def somThr : SOM := { somTrained with threshold := 3 / 2 }

/-- C2 counterexample: on the trained SOM with threshold `3/2`, input `[2]`
and `'linear'` mode, the raw activations are `[1/2, 1]` (not all equal), but
`get_activations` with `normalize=true` returns `[0, 0]` — a vector whose
maximum is `0`, not `1.0` — because the post-normalization threshold wipes
out every entry. -/
theorem C2_counterexample :
    somThr.get_activations [2] true true .linear = .ok ([0, 0], [(0, 0), (0, 1)]) ∧
    rawActivations somThr.tau .linear [[0], [1]] [2] = [1 / 2, 1] ∧
    ¬ pairwiseEqual [1 / 2, 1] ∧
    pyMax [(0 : ℝ), 0] = 0 ∧ (0 : ℝ) ≠ 1 := by
  have habs1 : |(2 : ℝ) - 0| = 2 := by
    rw [sub_zero]; exact abs_of_nonneg (by norm_num)
  have habs2 : |(2 : ℝ) - 1| = 1 := by norm_num
  have hr : rawActivations somThr.tau .linear [[0], [1]] [2] = [1 / 2, 1] := by
    simp [rawActivations, rawActivation, absDiffs, habs1, habs2]
  have hmin : pyMin [(1 : ℝ) / 2, 1] = 1 / 2 := by
    simp only [pyMin, List.headI_cons, List.foldl_cons, List.foldl_nil, min_self]
    exact min_eq_left (by norm_num)
  have hmax : pyMax [(1 : ℝ) / 2, 1] = 1 := by
    simp only [pyMax, List.headI_cons, List.foldl_cons, List.foldl_nil, max_self]
    exact max_eq_right (by norm_num)
  have hnorm : minMaxNormalize [(1 : ℝ) / 2, 1] = [0, 1] := by
    unfold minMaxNormalize
    rw [hmin, hmax]
    simp only [List.map_cons, List.map_nil]
    norm_num
  have hthrd : applyThreshold (3 / 2) [(0 : ℝ), 1] = [0, 0] := by
    simp only [applyThreshold, List.map_cons, List.map_nil]
    rw [if_pos (by norm_num : (0 : ℝ) < 3 / 2), if_pos (by norm_num : (1 : ℝ) < 3 / 2)]
  have hget := somThr.get_activations_normalize_eq [2] [[0], [1]] [(0, 0), (0, 1)]
    true .linear rfl rfl (by simp)
  rw [if_pos rfl, hr, hnorm, show somThr.threshold = 3 / 2 from rfl, hthrd] at hget
  refine ⟨hget, hr, ?_, ?_, by norm_num⟩
  · intro h
    have := h (1 / 2) (by simp) 1 (by simp)
    norm_num at this
  · simp [pyMax]

/-- Witness for the amended C2 at `somTrained` (threshold `0.6`), input
`[2]`, `'linear'` mode. -/
theorem C2_normalized_activation_range_witness :
    somTrained.weightages = some [[0], [1]] ∧
    somTrained.locationsNp = some [(0, 0), (0, 1)] ∧
    ([[0], [1]] : List (List ℝ)) ≠ [] ∧
    somTrained.threshold ≤ 1 ∧
    ((¬ pairwiseEqual (rawActivations somTrained.tau .linear [[0], [1]] [2]) →
      ∃ acts pos, somTrained.get_activations [2] true true .linear = .ok (acts, pos) ∧
        (∀ y ∈ acts, 0 ≤ y ∧ y ≤ 1) ∧ pyMax acts = 1 ∧ pyMin acts = 0) ∧
     (pairwiseEqual (rawActivations somTrained.tau .linear [[0], [1]] [2]) →
      ∃ pos, somTrained.get_activations [2] true true .linear
        = .ok ((rawActivations somTrained.tau .linear [[0], [1]] [2]).map (fun _ => 0), pos))) :=
  ⟨rfl, rfl, by simp, by norm_num [somTrained],
    C2_normalized_activation_range somTrained [2] [[0], [1]] [(0, 0), (0, 1)]
      true .linear rfl rfl (by simp) (by norm_num [somTrained])⟩

theorem pyArgmax_pair_left {a b : ℝ} (h : ¬ a < b) : pyArgmax [a, b] = 0 := by
  unfold pyArgmax
  rw [show ([a, b] : List ℝ).length = 2 from rfl,
    show List.range 2 = [0, 1] from rfl]
  simp only [List.foldl_cons, List.foldl_nil, List.getD_cons_zero,
    List.getD_cons_succ]
  rw [if_neg (lt_irrefl a)]
  simp only [List.getD_cons_zero]
  rw [if_neg h]

theorem pyMinBy_pair_right {f : ℕ → ℝ} (h : f 1 < f 0) : pyMinBy f 2 = 1 := by
  unfold pyMinBy
  rw [show List.range 2 = [0, 1] from rfl]
  simp only [List.foldl_cons, List.foldl_nil]
  rw [if_neg (lt_irrefl (f 0)), if_pos h]

/-- The source SOM selected by `get_bmus_propagate`'s `source_som` branch. -/
def propSourceSom (h : HebbianModel) : SourceSom → SOM
  | .v => h.somV
  | .a => h.somA

/-- The target SOM selected by `get_bmus_propagate`'s `source_som` branch. -/
def propTargetSom (h : HebbianModel) : SourceSom → SOM
  | .v => h.somA
  | .a => h.somV

/-- The matrix the source activation is multiplied by: `weights.T` when the
source is the audio SOM, `weights` when it is the visual one. -/
def propMatrix (h : HebbianModel) : SourceSom → List (List ℝ)
  | .a => transposeM h.weights
  | .v => h.weights

/-- C7 (amended): for every associator and input with a valid modality tag,
`get_bmus_propagate` returns the pair whose first component is the `argmax`
of the source SOM's activation vector (as computed by `get_activations` with
default arguments — not the Euclidean-distance BMU of `get_BMU`; see the
counterexample) and whose second component is the `argmax` of the product of
the association matrix (transposed for source `'a'`) with that activation
vector; it aborts with `sys.exit(1)` exactly when the target activation's
length differs from the target SOM's neuron count. -/
theorem C7_propagate_argmax (h : HebbianModel) (x : List ℝ) (src : SourceSom)
    (acts : List ℝ) (pos : List (ℤ × ℤ))
    (hacts : (propSourceSom h src).get_activations x true true .exp = .ok (acts, pos)) :
    ((matVec (propMatrix h src) acts).length
        = (propTargetSom h src).n * (propTargetSom h src).m →
      h.get_bmus_propagate x src
        = .ok (pyArgmax acts, pyArgmax (matVec (propMatrix h src) acts))) ∧
    ((matVec (propMatrix h src) acts).length
        ≠ (propTargetSom h src).n * (propTargetSom h src).m →
      h.get_bmus_propagate x src = .error .systemExit) := by
  cases src <;>
    (unfold propSourceSom propTargetSom propMatrix at *
     constructor <;> intro hc <;>
       simp [HebbianModel.get_bmus_propagate, hacts, hc])

/-- A trained 1x2 visual SOM with two-dimensional neuron weights
`[1, 0]` and `[3/5, 3/5]`. -/
def somV7 : SOM :=
  { m := 1, n := 2, dim := 2, alpha := 0.3, sigma := 1, tau := 1 / 2, threshold := 3 / 5,
    batchSize := 500, nIterations := 50,
    weightageVects := [[1, 0], [3 / 5, 3 / 5]], locationVects := [(0, 0), (0, 1)],
    weightages := some [[1, 0], [3 / 5, 3 / 5]], locationsNp := some [(0, 0), (0, 1)],
    trained := true, sessClosed := true, checkpointSaved := true,
    trainInterClassDistance := none, testInterClassDistance := none }

/-- A trained 1x2 audio SOM matching `somV7`'s grid dimensions. -/
def somA7 : SOM :=
  { m := 1, n := 2, dim := 2, alpha := 0.3, sigma := 1, tau := 1 / 2, threshold := 3 / 5,
    batchSize := 500, nIterations := 50,
    weightageVects := [[0, 0], [0, 0]], locationVects := [(0, 0), (0, 1)],
    weightages := some [[0, 0], [0, 0]], locationsNp := some [(0, 0), (0, 1)],
    trained := true, sessClosed := true, checkpointSaved := true,
    trainInterClassDistance := none, testInterClassDistance := none }

/-- A trained concrete associator over `somA7`/`somV7` with association
matrix `[[1, 0], [0, 1]]`. -/
def hebb7 : HebbianModel :=
  { somA := somA7, somV := somV7, aDim := 2, vDim := 2, learningRate := 10,
    nPresentations := 1, nClasses := 1, threshold := 3 / 5, tau := 1 / 2,
    hasCheckpointDir := false, weights := [[1, 0], [0, 1]], weightsNumeric := false,
    trained := true, sessClosed := true, checkpointSaved := false }

/-- The activation vector of `somV7` at `[0, 0]`: the raw activations are
`exp(-1) > exp(-6/5)` (the second neuron is closer in Euclidean distance but
farther in the mean-absolute distance that drives activations), so after
normalization and thresholding the result is `[1, 0]`. -/
theorem somV7_acts :
    somV7.get_activations [0, 0] true true .exp = .ok ([1, 0], [(0, 0), (0, 1)]) := by
  have habs1 : |(0 : ℝ) - 1| = 1 := by
    rw [show (0 : ℝ) - 1 = -1 by norm_num, abs_neg, abs_one]
  have habs0 : |(0 : ℝ) - 0| = 0 := by simp
  have habs35 : |(0 : ℝ) - 3 / 5| = 3 / 5 := by
    rw [show (0 : ℝ) - 3 / 5 = -(3 / 5) by norm_num, abs_neg]
    exact abs_of_nonneg (by norm_num)
  have hr : rawActivations somV7.tau .exp [[1, 0], [3 / 5, 3 / 5]] [0, 0]
      = [Real.exp (-1), Real.exp (-(6 / 5))] := by
    simp only [rawActivations, rawActivation, absDiffs, List.map_cons, List.map_nil,
      List.zipWith_cons_cons, List.zipWith_nil_right, List.zipWith_nil_left,
      habs1, habs0, habs35, List.sum_cons, List.sum_nil, List.length_cons,
      List.length_nil]
    norm_num [somV7]
  have hlt : Real.exp (-(6 / 5)) < Real.exp (-1) :=
    Real.exp_lt_exp.mpr (by norm_num)
  have hne10 : Real.exp (-1) - Real.exp (-(6 / 5)) ≠ 0 :=
    sub_ne_zero.mpr hlt.ne'
  have hmin : pyMin [Real.exp (-1), Real.exp (-(6 / 5))] = Real.exp (-(6 / 5)) := by
    simp only [pyMin, List.headI_cons, List.foldl_cons, List.foldl_nil, min_self]
    exact min_eq_right hlt.le
  have hmax : pyMax [Real.exp (-1), Real.exp (-(6 / 5))] = Real.exp (-1) := by
    simp only [pyMax, List.headI_cons, List.foldl_cons, List.foldl_nil, max_self]
    exact max_eq_left hlt.le
  have hnorm : minMaxNormalize [Real.exp (-1), Real.exp (-(6 / 5))] = [1, 0] := by
    unfold minMaxNormalize
    rw [hmin, hmax]
    simp only [List.map_cons, List.map_nil, sub_self, zero_div]
    rw [div_self hne10]
  have hthrd : applyThreshold (3 / 5) [(1 : ℝ), 0] = [1, 0] := by
    simp only [applyThreshold, List.map_cons, List.map_nil]
    rw [if_neg (by norm_num : ¬ (1 : ℝ) < 3 / 5),
      if_pos (by norm_num : (0 : ℝ) < 3 / 5)]
  have hget := somV7.get_activations_normalize_eq [0, 0] [[1, 0], [3 / 5, 3 / 5]]
    [(0, 0), (0, 1)] true .exp rfl rfl (by simp)
  rw [if_pos rfl, hr, hnorm, show somV7.threshold = 3 / 5 from rfl, hthrd] at hget
  exact hget

/-- C7 counterexample: for `somV7` and input `[0, 0]`, `get_bmus_propagate`
returns source index `0` (the argmax of the activation vector, which is
driven by mean-absolute distance), while `get_BMU` — the Euclidean-distance
BMU the claim requires — returns index `1`. -/
theorem C7_counterexample :
    hebb7.get_bmus_propagate [0, 0] .v = .ok (0, 0) ∧
    somV7.get_BMU [0, 0] = .ok (1, (0, 1)) ∧ (0 : ℕ) ≠ 1 := by
  have hacts : hebb7.somV.get_activations [0, 0] true true .exp
      = .ok ([1, 0], [(0, 0), (0, 1)]) := somV7_acts
  have hmv : matVec hebb7.weights [1, 0] = [1, 0] := by
    simp only [hebb7, matVec, dotL, List.map_cons, List.map_nil,
      List.zipWith_cons_cons, List.zipWith_nil_right, List.zipWith_nil_left,
      List.sum_cons, List.sum_nil]
    norm_num
  have hax : pyArgmax [(1 : ℝ), 0] = 0 := pyArgmax_pair_left (by norm_num)
  refine ⟨?_, ?_, by norm_num⟩
  · simp only [HebbianModel.get_bmus_propagate, hacts, except_bind_ok, hmv, hax]
    norm_num
    exact fun hcon => absurd rfl hcon
  · have hd1 : euclidDist [0, 0] [3 / 5, 3 / 5] < euclidDist [0, 0] [1, 0] := by
      have hs1 : sqDist [0, 0] [(1 : ℝ), 0] = 1 := by
        simp only [sqDist, List.zipWith_cons_cons, List.zipWith_nil_right,
          List.zipWith_nil_left, List.sum_cons, List.sum_nil]
        norm_num
      have hs2 : sqDist [0, 0] [(3 : ℝ) / 5, 3 / 5] = 18 / 25 := by
        simp only [sqDist, List.zipWith_cons_cons, List.zipWith_nil_right,
          List.zipWith_nil_left, List.sum_cons, List.sum_nil]
        norm_num
      unfold euclidDist
      rw [hs1, hs2, Real.sqrt_one]
      calc Real.sqrt (18 / 25) < Real.sqrt 1 :=
            Real.sqrt_lt_sqrt (by norm_num) (by norm_num)
        _ = 1 := Real.sqrt_one
    have hidx : pyMinBy
        (fun i => euclidDist [0, 0] ([[1, 0], [3 / 5, 3 / 5]].getD i [])) 2 = 1 :=
      pyMinBy_pair_right hd1
    calc somV7.get_BMU [0, 0]
        = .ok (pyMinBy (fun i => euclidDist [0, 0] ([[1, 0], [3 / 5, 3 / 5]].getD i [])) 2,
            [(0, 0), (0, 1)].getD
              (pyMinBy (fun i => euclidDist [0, 0] ([[1, 0], [3 / 5, 3 / 5]].getD i [])) 2)
              (0, 0)) := rfl
      _ = .ok (1, (0, 1)) := by
          rw [hidx]
          simp

/-- Witness for the amended C7 at `hebb7`, input `[0, 0]`, source `'v'`. -/
theorem C7_propagate_argmax_witness :
    (propSourceSom hebb7 .v).get_activations [0, 0] true true .exp
      = .ok ([1, 0], [(0, 0), (0, 1)]) ∧
    (((matVec (propMatrix hebb7 .v) [1, 0]).length
        = (propTargetSom hebb7 .v).n * (propTargetSom hebb7 .v).m →
      hebb7.get_bmus_propagate [0, 0] .v
        = .ok (pyArgmax [1, 0], pyArgmax (matVec (propMatrix hebb7 .v) [1, 0]))) ∧
     ((matVec (propMatrix hebb7 .v) [1, 0]).length
        ≠ (propTargetSom hebb7 .v).n * (propTargetSom hebb7 .v).m →
      hebb7.get_bmus_propagate [0, 0] .v = .error .systemExit)) :=
  ⟨somV7_acts,
    C7_propagate_argmax hebb7 [0, 0] .v [1, 0] [(0, 0), (0, 1)] somV7_acts⟩
